import Mathlib

/-!
Verification of the RAG pipeline and DeepSearch research agent of the
`ai-playground` repository, against its natural-language specification.

The TypeScript sources are shallowly embedded: strings are modelled as
`List Char` (JavaScript strings are finite sequences of code units), numbers
carried by embeddings and similarity scores as real numbers (idealised
floats), fallible operations as `Option`/`Except`, and the external network
calls (embedding provider, chat completion provider) as explicit parameters
holding the provider's response.  The `while` loop of the chunker is embedded
with an explicit fuel argument: `none` means the loop had not finished after
`fuel` iterations, so `∀ fuel, … = none` states non-termination.
-/

namespace AIPlayground

/-! ## JavaScript string primitives (on `List Char`) -/

/-- Characters of the JavaScript `\s` class that occur in this code base's
data paths (space, tab, newline, carriage return, vertical tab, form feed). -/
def isJsWhitespace (c : Char) : Bool :=
  c == ' ' || c == '\t' || c == '\n' || c == '\r' || c == '\x0b' || c == '\x0c'

/-- JavaScript `String.prototype.trim`: strip leading and trailing whitespace. -/
def jsTrim (l : List Char) : List Char :=
  ((l.dropWhile isJsWhitespace).reverse.dropWhile isJsWhitespace).reverse

/-- JavaScript `String.prototype.slice(start, end)` with signed indices:
negative indices count from the end, then both are clamped to `[0, length]`. -/
def jsSlice (l : List Char) (s e : Int) : List Char :=
  let len : Int := l.length
  let s' : Int := if s < 0 then max (len + s) 0 else min s len
  let e' : Int := if e < 0 then max (len + e) 0 else min e len
  if s' < e' then (l.drop s'.toNat).take (e' - s').toNat else []

/-- Whether `pat` occurs at the head of `l`. -/
def matchesAt (l pat : List Char) : Bool :=
  pat.isPrefixOf l

/-- JavaScript `String.prototype.lastIndexOf(pat)`: the largest index at which
`pat` occurs in `l`, or `none` (the JS `-1`). -/
def lastIndexOfSub (l pat : List Char) : Option Nat :=
  ((List.range (l.length + 1)).filter (fun i => matchesAt (l.drop i) pat)).getLast?

/-- One-pass embedding of `.replace(/\r\n/g, '\n').replace(/\r/g, '\n')`. -/
def replaceCR : List Char → List Char
  | [] => []
  | '\r' :: '\n' :: rest => '\n' :: replaceCR rest
  | '\r' :: rest => '\n' :: replaceCR rest
  | c :: rest => c :: replaceCR rest

/-- Embedding of `.replace(/\n{3,}/g, '\n\n')`: every run of three or more
newlines collapses to exactly two. -/
def collapseNewlines : List Char → List Char
  | '\n' :: '\n' :: '\n' :: rest => collapseNewlines ('\n' :: '\n' :: rest)
  | c :: rest => c :: collapseNewlines rest
  | [] => []
termination_by l => l.length
decreasing_by all_goals simp

/-! ## Chunker (`splitIntoChunks`, `findBreakPoint` of the chunking module) -/

structure ChunkOptions where
  chunkSize : Nat
  chunkOverlap : Nat
  minChunkSize : Nat
deriving DecidableEq, Repr

/-- `DEFAULT_OPTIONS` of the chunking module. -/
def defaultChunkOptions : ChunkOptions :=
  { chunkSize := 2000, chunkOverlap := 200, minChunkSize := 100 }

structure ChunkMetadata where
  startIndex : Int
  endIndex : Int
deriving DecidableEq, Repr

/-- `Omit<DocumentChunk, 'embedding'>`: what the chunker emits. -/
structure TextChunk where
  id : String
  documentId : String
  content : List Char
  metadata : ChunkMetadata
deriving DecidableEq, Repr

/-- Chunk ids are derived from the document id and the ordinal position. -/
def chunkId (documentId : String) (k : Nat) : String :=
  documentId ++ "-chunk-" ++ toString k

/-- The normalisation at the top of `splitIntoChunks`: CR/CRLF to LF, collapse
3+ newlines to two, trim. -/
def normalizeText (l : List Char) : List Char :=
  jsTrim (collapseNewlines (replaceCR l))

/-- The six sentence-break patterns searched by `findBreakPoint`, in order. -/
def sentenceBreaks : List (List Char) :=
  [['.', ' '], ['!', ' '], ['?', ' '], ['.', '\n'], ['!', '\n'], ['?', '\n']]

/-- A candidate break: found by `lastIndexOf` and lying in the back half of the
search window (`breakIndex > searchText.length * 0.5`, i.e. `2*i > length`). -/
def breakCandidate (searchText pat : List Char) : Option Nat :=
  match lastIndexOfSub searchText pat with
  | some i => if 2 * i > searchText.length then some i else none
  | none => none

/-- `findBreakPoint(text, start, idealEnd)`: search backwards within the last
400 characters of the window for a paragraph break, then a sentence break,
then a line break, then a space; fall back to the ideal end. -/
def findBreakPoint (text : List Char) (start idealEnd : Int) : Int :=
  let searchStart : Int := max start (idealEnd - 400)
  let searchText : List Char := jsSlice text searchStart idealEnd
  match breakCandidate searchText ['\n', '\n'] with
  | some i => searchStart + i + 2
  | none =>
    match (sentenceBreaks.filterMap (breakCandidate searchText)).head? with
    | some i => searchStart + i + 2
    | none =>
      match breakCandidate searchText ['\n'] with
      | some i => searchStart + i + 1
      | none =>
        match breakCandidate searchText [' '] with
        | some i => searchStart + i + 1
        | none => idealEnd

/-- The `while (startIndex < normalizedText.length)` loop of `splitIntoChunks`,
with fuel.  `none`: the loop had not exited after `fuel` iterations. -/
def chunkLoop (text : List Char) (documentId : String) (opts : ChunkOptions) :
    Nat → Int → Nat → List TextChunk → Option (List TextChunk)
  | 0, _, _, _ => none
  | fuel + 1, startIndex, chunkIndex, acc =>
    if startIndex < (text.length : Int) then
      let ideal : Int := startIndex + (opts.chunkSize : Int)
      let endIndex : Int :=
        if ideal < (text.length : Int) then findBreakPoint text startIndex ideal
        else (text.length : Int)
      let content := jsTrim (jsSlice text startIndex endIndex)
      let acc' :=
        if opts.minChunkSize ≤ content.length then
          acc ++ [{ id := chunkId documentId chunkIndex, documentId := documentId,
                    content := content,
                    metadata := { startIndex := startIndex, endIndex := endIndex } }]
        else acc
      let chunkIndex' :=
        if opts.minChunkSize ≤ content.length then chunkIndex + 1 else chunkIndex
      let startIndex' := endIndex - (opts.chunkOverlap : Int)
      if startIndex' ≥ (text.length : Int) - (opts.minChunkSize : Int) then some acc'
      else chunkLoop text documentId opts fuel startIndex' chunkIndex' acc'
    else some acc

/-- `splitIntoChunks(text, documentId, options)`.  The result is `some chunks`
when the loop terminates within `fuel` iterations, `none` otherwise. -/
def splitIntoChunks (fuel : Nat) (text : List Char) (documentId : String)
    (opts : ChunkOptions) : Option (List TextChunk) :=
  let normalized := normalizeText text
  if normalized.length ≤ opts.chunkSize then
    some [{ id := chunkId documentId 0, documentId := documentId,
            content := normalized,
            metadata := { startIndex := 0, endIndex := (normalized.length : Int) } }]
  else
    chunkLoop normalized documentId opts fuel 0 0 []

/-- The text of `splitIntoChunks`'s termination claim is exercised below on
this concrete input: 2100 copies of `'a'` (longer than the default chunk
size of 2000, with no break characters). -/
def divergingText : List Char :=
  List.replicate 2100 'a'

/-! ## Embedding client (`embeddings.ts`)

The network call is abstracted: `generateEmbeddings` takes the provider's
response items (`data` of the embedding response) as a parameter.  The
request-side cleaning of the input texts is `cleanForEmbedding`. -/

/-- Embedding of `.replace(/\n+/g, ' ')`: every run of newlines becomes one
space. -/
def newlinesToSpaces : List Char → List Char
  | '\n' :: '\n' :: rest => newlinesToSpaces ('\n' :: rest)
  | '\n' :: rest => ' ' :: newlinesToSpaces rest
  | c :: rest => c :: newlinesToSpaces rest
  | [] => []
termination_by l => l.length
decreasing_by all_goals simp

/-- `text.replace(/\n+/g, ' ').trim().slice(0, 8000)`: the cleaning applied to
each input text before it is submitted to the embedding provider. -/
def cleanForEmbedding (text : String) : String :=
  String.mk ((jsTrim (newlinesToSpaces text.toList)).take 8000)

/-- One item of the provider's embedding response: a reported index and the
embedding vector. -/
structure EmbeddingItem where
  index : Nat
  embedding : List ℝ

/-- `generateEmbeddings(texts)`, with the provider response `data` passed in:
the response items are sorted by their reported `index` (the JS stable
`sort((a, b) => a.index - b.index)`) and the embeddings extracted in that
order. -/
def generateEmbeddings (texts : List String) (data : List EmbeddingItem) :
    List (List ℝ) :=
  let _cleanedTexts := texts.map cleanForEmbedding
  (data.mergeSort (fun a b => decide (a.index ≤ b.index))).map (·.embedding)

/-- The accumulated `dotProduct` of `cosineSimilarity`'s loop. -/
def dotProduct (a b : List ℝ) : ℝ :=
  (List.zipWith (fun x y => x * y) a b).sum

/-- The accumulated `normA`/`normB` sums of squares of `cosineSimilarity`'s
loop (before the square root). -/
def sumSquares (a : List ℝ) : ℝ :=
  (a.map (fun x => x * x)).sum

/-- The value `cosineSimilarity(a, b)` computes once the length guard has
passed: 0 when either norm is zero (the deliberate division-by-zero default),
otherwise dot product over the product of norms. -/
noncomputable def cosineSimilarityVal (a b : List ℝ) : ℝ :=
  let normA := Real.sqrt (sumSquares a)
  let normB := Real.sqrt (sumSquares b)
  if normA = 0 ∨ normB = 0 then 0
  else dotProduct a b / (normA * normB)

/-- `cosineSimilarity(a, b)`: throws (`none`) on a length mismatch, else the
value above. -/
noncomputable def cosineSimilarity (a b : List ℝ) : Option ℝ :=
  if a.length = b.length then some (cosineSimilarityVal a b) else none

/-! ## Vector index (`vectordb.ts`) -/

/-- `VectorRecord.metadata`: chunk position plus optional page number. -/
structure RecordMetadata where
  startIndex : Int
  endIndex : Int
  pageNumber : Option Nat
deriving DecidableEq, Repr

/-- A persisted chunk record of the in-memory `vectorStore`. -/
structure VectorRecord where
  id : String
  documentId : String
  content : String
  embedding : List ℝ
  metadata : RecordMetadata

/-- A record of the in-memory `documentStore` map. -/
structure DocumentRecord where
  id : String
  name : String
  type : String
  content : String
  createdAt : Nat
  metadata : List (String × String)
deriving DecidableEq, Repr

/-- The `Document` argument of `addDocument` (string-keyed metadata models the
`Record<string, unknown>` cast). -/
structure Document where
  id : String
  name : String
  type : String
  content : String
  metadata : List (String × String)
  createdAt : Nat
deriving DecidableEq, Repr

/-- `Omit<DocumentChunk, 'embedding'>`: the chunk argument of `addDocument`. -/
structure ChunkInput where
  id : String
  documentId : String
  content : String
  metadata : RecordMetadata
deriving DecidableEq, Repr

/-- The two module-level stores of `vectordb.ts`.  The `Map` is modelled as an
association list in insertion order. -/
structure DBState where
  vectorStore : List VectorRecord
  documentStore : List (String × DocumentRecord)

def emptyDB : DBState :=
  { vectorStore := [], documentStore := [] }

/-- `Map.set`: replace the value in place when the key is present, else append. -/
def mapSet (m : List (String × DocumentRecord)) (k : String) (v : DocumentRecord) :
    List (String × DocumentRecord) :=
  match m with
  | [] => [(k, v)]
  | (k', v') :: rest => if k' == k then (k, v) :: rest else (k', v') :: mapSet rest k v

/-- `Map.get`. -/
def mapGet (m : List (String × DocumentRecord)) (k : String) : Option DocumentRecord :=
  (m.find? (fun p => p.1 == k)).map (·.2)

/-- `addDocument(document, chunks)`: stores the document metadata FIRST, then
generates embeddings for all chunks in one batch call (the call's outcome is
the `embedResult` parameter), then appends the chunk records.  The second
component is the raised error, `none` on success; the first component is the
state of the stores when control returns, on success or failure. -/
def addDocument (st : DBState) (document : Document) (chunks : List ChunkInput)
    (embedResult : Except String (List (List ℝ))) : DBState × Option String :=
  let documentStore' := mapSet st.documentStore document.id
    { id := document.id, name := document.name, type := document.type,
      content := document.content, createdAt := document.createdAt,
      metadata := document.metadata }
  match embedResult with
  | .error e => ({ st with documentStore := documentStore' }, some e)
  | .ok embeddings =>
    let newRecords := (chunks.zip embeddings).map (fun p =>
      { id := p.1.id, documentId := p.1.documentId, content := p.1.content,
        embedding := p.2, metadata := p.1.metadata })
    ({ vectorStore := st.vectorStore ++ newRecords,
       documentStore := documentStore' }, none)

/-- `getDocument(documentId)`. -/
def getDocument (st : DBState) (documentId : String) : Option DocumentRecord :=
  mapGet st.documentStore documentId

/-- `getChunkCount(documentId)`. -/
def getChunkCount (st : DBState) (documentId : String) : Nat :=
  (st.vectorStore.filter (fun r => r.documentId == documentId)).length

/-- The chunk part of a `RAGSearchResult`. -/
structure RAGChunk where
  id : String
  documentId : String
  content : String
  metadata : RecordMetadata
deriving DecidableEq, Repr

/-- The document part of a `RAGSearchResult` (built with fallbacks when the
document record is missing). -/
structure RAGDocument where
  id : String
  name : String
  type : String
  content : String
  createdAt : Nat
  metadata : List (String × String)
deriving DecidableEq, Repr

structure RAGSearchResult where
  chunk : RAGChunk
  document : RAGDocument
  score : ℝ

/-- The result construction at the end of `searchSimilar`: joins the record
with its document's metadata, with fallbacks (`'Unknown'`, `Date.now()`
modelled by the `now` parameter) when the document record is absent. -/
def mkRAGSearchResult (st : DBState) (record : VectorRecord) (score : ℝ)
    (now : Nat) : RAGSearchResult :=
  let doc := mapGet st.documentStore record.documentId
  { chunk := { id := record.id, documentId := record.documentId,
               content := record.content, metadata := record.metadata },
    document := { id := (doc.map (·.id)).getD record.documentId,
                  name := (doc.map (·.name)).getD "Unknown",
                  type := (doc.map (·.type)).getD "unknown",
                  content := (doc.map (·.content)).getD "",
                  createdAt := (doc.map (·.createdAt)).getD now,
                  metadata := ("source", "upload") :: (doc.map (·.metadata)).getD [] },
    score := score }

/-- The comparator `(a, b) => b.score - a.score` of `searchSimilar`'s sort:
`a` may stay before `b` exactly when `b.score ≤ a.score` (descending).  The JS
engine's sort is stable; it is modelled by the stable `List.mergeSort`. -/
noncomputable def scoreDescLe (a b : VectorRecord × ℝ) : Bool :=
  decide (b.2 ≤ a.2)

/-- The candidate records of `searchSimilar`: the whole store, or — when a
non-empty `documentIds` filter is given — the records whose `documentId` it
contains. -/
def searchCandidates (st : DBState) (documentIds : Option (List String)) :
    List VectorRecord :=
  match documentIds with
  | some ids =>
    if 0 < ids.length then
      st.vectorStore.filter (fun record => ids.contains record.documentId)
    else st.vectorStore
  | none => st.vectorStore

/-- The `candidates.map(record => ({record, score: cosineSimilarity(...)}))`
of `searchSimilar`; a similarity throw (length mismatch) propagates as
`none`. -/
noncomputable def scoreCandidates (queryEmbedding : List ℝ) :
    List VectorRecord → Option (List (VectorRecord × ℝ))
  | [] => some []
  | record :: rest =>
    match cosineSimilarity queryEmbedding record.embedding with
    | none => none
    | some score =>
      match scoreCandidates queryEmbedding rest with
      | none => none
      | some scored => some ((record, score) :: scored)

/-- `searchSimilar(query, topK, documentIds)`, with the query's embedding (the
result of `generateEmbedding(query)`) passed in.  Returns `none` when a
similarity computation throws (length mismatch); otherwise the top-`topK`
results by descending cosine similarity over the candidate records. -/
noncomputable def searchSimilar (st : DBState) (queryEmbedding : List ℝ)
    (topK : Nat) (documentIds : Option (List String)) (now : Nat) :
    Option (List RAGSearchResult) :=
  if st.vectorStore.length = 0 then some []
  else
    match scoreCandidates queryEmbedding (searchCandidates st documentIds) with
    | none => none
    | some scored =>
      let sorted := scored.mergeSort scoreDescLe
      some ((sorted.take topK).map (fun p => mkRAGSearchResult st p.1 p.2 now))

/-- The chunk-and-score projection of a search result, for stating which
records `searchSimilar` ranked. -/
noncomputable def searchResultKey (r : RAGSearchResult) : RAGChunk × ℝ :=
  (r.chunk, r.score)

/-- The chunk-and-score pair `searchSimilar` derives from a candidate record:
the record's chunk fields with its cosine similarity to the query. -/
noncomputable def candidateKey (queryEmbedding : List ℝ) (record : VectorRecord) :
    RAGChunk × ℝ :=
  ({ id := record.id, documentId := record.documentId, content := record.content,
     metadata := record.metadata },
   cosineSimilarityVal queryEmbedding record.embedding)

/-! ## Document parser dispatch (`parsers.ts`) -/

/-- `getSupportedExtensions()`. -/
def getSupportedExtensions : List String :=
  ["pdf", "docx", "txt", "md", "vtt", "srt", "pptx"]

/-- JavaScript `String.prototype.split(sep)` for a single-character separator
(`''.split('.')` is `['']`, so the result is never empty). -/
def splitOnChar (sep : Char) (l : List Char) : List (List Char) :=
  l.foldr
    (fun c acc => if c == sep then [] :: acc else (c :: acc.headD []) :: acc.tail)
    [[]]

/-- `filename.split('.').pop()?.toLowerCase()`. -/
def extensionOf (filename : String) : String :=
  String.mk (((splitOnChar '.' filename.toList).getLastD []).map Char.toLower)

/-- The format-specific parsers `parseFile` can dispatch to.  Their extraction
logic delegates to external libraries and can fail later with a corrupt-file
error; that is distinct from the `UnsupportedFormat` throw modelled as `none`. -/
inductive FileParserKind
  | pdf
  | docx
  | txt
  | vtt
  | pptx
deriving DecidableEq, Repr

/-- The dispatch of `parseFile(buffer, filename)`: `none` is the immediate
`Unsupported file type` throw. -/
def parseFileDispatch (filename : String) : Option FileParserKind :=
  match extensionOf filename with
  | "pdf" => some .pdf
  | "docx" => some .docx
  | "txt" => some .txt
  | "md" => some .txt
  | "markdown" => some .txt
  | "vtt" => some .vtt
  | "srt" => some .vtt
  | "pptx" => some .pptx
  | _ => none

/-! ## DeepSearch research agent (`researcher.ts`)

Each chat-completion call is abstracted as a parameter holding that call's
outcome: `Except ε String` is the message content of a successful call, or
the error the call threw. -/

structure Citation where
  id : String
  title : String
  url : String
  snippet : Option String := none
deriving DecidableEq, Repr

structure DeepSearchResult where
  question : String
  answer : String
  sources : List Citation
deriving DecidableEq, Repr

inductive DeepSearchStatus
  | pending
  | searching
  | synthesizing
  | complete
  | error
deriving DecidableEq, Repr

structure DeepSearchQuery where
  question : String
  subQuestions : List String
  searchResults : List DeepSearchResult
  synthesis : Option String
  citations : Option (List Citation)
  status : DeepSearchStatus
deriving DecidableEq, Repr

/-- Embedding of `line.replace(/^\d+\.\s*/, '')`: strip a leading run of
digits followed by a dot and any whitespace. -/
def stripNumberDot (l : List Char) : List Char :=
  let digits := l.takeWhile (fun c => c.isDigit)
  if digits.isEmpty then l
  else
    match l.drop digits.length with
    | '.' :: rest => rest.dropWhile isJsWhitespace
    | _ => l

/-- The numbered-list parsing of `breakdownQuestion`: split on newlines, drop
blank lines, strip `"N. "` headers and trim, drop empties, take at most
`maxSubQuestions`; fall back to the original question when nothing is left. -/
def parseSubQuestions (content : String) (maxSubQuestions : Nat)
    (question : String) : List String :=
  let lines := (content.splitOn "\n").filter (fun l => !(jsTrim l.toList).isEmpty)
  let questions :=
    ((lines.map (fun l => String.mk (jsTrim (stripNumberDot l.toList)))).filter
      (fun q => 0 < q.length)).take maxSubQuestions
  if 0 < questions.length then questions else [question]

/-- The character class `[^\s\]]` of the URL regex, complemented. -/
def urlStopChar (c : Char) : Bool :=
  isJsWhitespace c || c == ']'

/-- A match of `/https?:\/\/[^\s\]]+/` anchored at the head of `l`:
the literal scheme followed by at least one non-space, non-`]` character. -/
def urlMatchAt (l : List Char) : Option (List Char) :=
  if matchesAt l ("https://".toList) then
    let tail := (l.drop 8).takeWhile (fun c => !(urlStopChar c))
    if tail.isEmpty then none else some ("https://".toList ++ tail)
  else if matchesAt l ("http://".toList) then
    let tail := (l.drop 7).takeWhile (fun c => !(urlStopChar c))
    if tail.isEmpty then none else some ("http://".toList ++ tail)
  else none

/-- All matches of the URL regex, left to right, resuming after each match
(`u` is never empty: a match starts with its 7- or 8-character scheme, so
`rest.drop (u.length - 1)` is the text after the match). -/
def findUrls : List Char → List (List Char)
  | [] => []
  | c :: rest =>
    match urlMatchAt (c :: rest) with
    | some u => u :: findUrls (rest.drop (u.length - 1))
    | none => findUrls rest
termination_by l => l.length
decreasing_by
  all_goals simp [List.length_drop]
  omega

/-- `url.replace(/[.,;:!?)]+$/, '')`: strip the trailing run of punctuation. -/
def stripTrailingPunct (u : List Char) : List Char :=
  (u.reverse.dropWhile (fun c =>
    c == '.' || c == ',' || c == ';' || c == ':' || c == '!' || c == '?' || c == ')')).reverse

/-- `extractCitations(text)`: URL-shaped substrings, cleaned of trailing
punctuation, with synthetic ordinal ids and titles. -/
def extractCitations (text : List Char) : List Citation :=
  (findUrls text).enum.map (fun p =>
    { id := "citation-" ++ toString p.1,
      title := "Source " ++ toString (p.1 + 1),
      url := String.mk (stripTrailingPunct p.2) })

/-- The deduplication at the end of `synthesize`:
`allCitations.filter((citation, index, self) => index === self.findIndex(c => c.url === citation.url))`. -/
def dedupCitationsByUrl (l : List Citation) : List Citation :=
  (l.enum.filter (fun p => p.1 == l.findIdx (fun c2 => c2.url == p.2.url))).map (·.2)

/-- The citation list `synthesize` returns: all sub-result citations in order,
deduplicated by URL. -/
def synthesizeCitations (results : List DeepSearchResult) : List Citation :=
  dedupCitationsByUrl (results.flatMap (·.sources))

/-- Modelled from the spec: "collect all citations across sub-results and
deduplicate by URL (first occurrence wins, order preserved)" — a direct
recursive rendering of first-occurrence-wins deduplication, to be compared
with the code's `dedupCitationsByUrl`. -/
def dedupeByUrlSpec : List Citation → List Citation
  | [] => []
  | c :: rest => c :: dedupeByUrlSpec (rest.filter (fun c2 => !(c2.url == c.url)))
termination_by l => l.length
decreasing_by
  simp
  exact Nat.lt_succ_of_le (List.length_filter_le _ _)

/-- Proof-side characterisation of URL deduplication: skip a citation whose
URL was already seen, else keep it and remember its URL. -/
def dedupByUrlSeen (seen : List String) : List Citation → List Citation
  | [] => []
  | c :: rest =>
    if c.url ∈ seen then dedupByUrlSeen seen rest
    else c :: dedupByUrlSeen (c.url :: seen) rest

/-- `searchSubQuestion(question)` given the search model call's outcome:
packages the answer with its extracted citations. -/
def searchSubQuestion (question : String) (resp : Except ε String) :
    Except ε DeepSearchResult :=
  match resp with
  | .error e => .error e
  | .ok answer =>
    .ok { question := question, answer := answer,
          sources := extractCitations answer.toList }

/-- The sequential per-sub-question search loop of `research` (step 2):
`searchResp i` is the outcome of the `i`-th search call.  Returns the results
gathered before the first failure, and that failure when there is one. -/
def searchLoop (searchResp : Nat → Except ε String) :
    List String → Nat → List DeepSearchResult × Option ε
  | [], _ => ([], none)
  | q :: rest, i =>
    match searchSubQuestion q (searchResp i) with
    | .error e => ([], some e)
    | .ok r =>
      let p := searchLoop searchResp rest (i + 1)
      (r :: p.1, p.2)

/-- `DeepSearchAgent.research(question)`: decomposition, sequential search,
synthesis, with the `try/catch` that sets `status = 'error'` and re-raises.
The three chat calls' outcomes are the `Except` parameters.  Returns the
`DeepSearchQuery` object as finally mutated, and the re-raised error (`none`
when the run completed). -/
def research (question : String) (maxSubQuestions : Nat)
    (decompResp : Except ε String) (searchResp : Nat → Except ε String)
    (synthResp : Except ε String) : DeepSearchQuery × Option ε :=
  let query0 : DeepSearchQuery :=
    { question := question, subQuestions := [], searchResults := [],
      synthesis := none, citations := none, status := .pending }
  match decompResp with
  | .error e => ({ query0 with status := .error }, some e)
  | .ok content =>
    let subQuestions := parseSubQuestions content maxSubQuestions question
    let q1 := { query0 with status := .searching, subQuestions := subQuestions }
    match searchLoop searchResp subQuestions 0 with
    | (results, some e) =>
      ({ q1 with searchResults := results, status := .error }, some e)
    | (results, none) =>
      let q2 := { q1 with searchResults := results, status := .synthesizing }
      match synthResp with
      | .error e => ({ q2 with status := .error }, some e)
      | .ok synthesis =>
        ({ q2 with synthesis := some synthesis,
                   citations := some (synthesizeCitations results),
                   status := .complete }, none)

/-- The sub-question results `research` has gathered before the first search
failure (all of them when every search succeeds): the independent
characterisation used to state claim C2. -/
def gatheredResults (searchResp : Nat → Except ε String) :
    List String → Nat → List DeepSearchResult
  | [], _ => []
  | q :: rest, i =>
    match searchSubQuestion q (searchResp i) with
    | .error _ => []
    | .ok r => r :: gatheredResults searchResp rest (i + 1)

/-! ## Lemmas: behaviour of the chunker on `divergingText`

The break test of the chunk loop is `startIndex' ≥ length − minChunkSize` with
`startIndex' = endIndex − overlap` and `endIndex ≤ length`, so under the
default options (overlap 200 > minChunkSize 100) it would need
`endIndex ≥ length + 100` and can never fire; nor can the `while` guard
`startIndex < length` ever fail.  On `divergingText` the loop reaches the
fixed point `startIndex = 1900` and runs forever. -/

theorem replaceCR_replicate_a (n : Nat) :
    replaceCR (List.replicate n 'a') = List.replicate n 'a' := by
  induction n with
  | zero => rfl
  | succ n ih =>
    rw [List.replicate_succ]
    rw [show replaceCR ('a' :: List.replicate n 'a')
        = 'a' :: replaceCR (List.replicate n 'a') from rfl, ih]

theorem collapseNewlines_replicate_a (n : Nat) :
    collapseNewlines (List.replicate n 'a') = List.replicate n 'a' := by
  induction n with
  | zero => simp [collapseNewlines]
  | succ n ih =>
    rw [List.replicate_succ]
    rw [show collapseNewlines ('a' :: List.replicate n 'a')
        = 'a' :: collapseNewlines (List.replicate n 'a') by simp [collapseNewlines], ih]

theorem jsTrim_replicate_a (n : Nat) :
    jsTrim (List.replicate n 'a') = List.replicate n 'a' := by
  cases n with
  | zero => rfl
  | succ n =>
    unfold jsTrim
    rw [List.replicate_succ, List.dropWhile_cons, if_neg (by decide),
      ← List.replicate_succ, List.reverse_replicate, List.replicate_succ,
      List.dropWhile_cons, if_neg (by decide), ← List.replicate_succ,
      List.reverse_replicate]

theorem normalizeText_replicate_a (n : Nat) :
    normalizeText (List.replicate n 'a') = List.replicate n 'a' := by
  unfold normalizeText
  rw [replaceCR_replicate_a, collapseNewlines_replicate_a, jsTrim_replicate_a]

theorem jsSlice_replicate (n : Nat) (a : Char) (s e : Int) (h0 : 0 ≤ s) (h1 : s ≤ e)
    (h2 : e ≤ (n : Int)) :
    jsSlice (List.replicate n a) s e = List.replicate (e - s).toNat a := by
  simp only [jsSlice, List.length_replicate]
  have hs : (if s < 0 then max ((n : Int) + s) 0 else min s (n : Int)) = s := by
    split <;> omega
  have he : (if e < 0 then max ((n : Int) + e) 0 else min e (n : Int)) = e := by
    split <;> omega
  rw [hs, he]
  by_cases hse : s < e
  · rw [if_pos hse, List.drop_replicate, List.take_replicate]
    congr 1
    omega
  · rw [if_neg hse]
    have h3 : (e - s).toNat = 0 := by omega
    rw [h3]
    rfl

theorem lastIndexOfSub_replicate_a (m : Nat) (c : Char) (cs : List Char)
    (h : (c == 'a') = false) :
    lastIndexOfSub (List.replicate m 'a') (c :: cs) = none := by
  unfold lastIndexOfSub
  rw [List.filter_eq_nil_iff.mpr, List.getLast?_nil]
  intro i _
  simp only [matchesAt, List.drop_replicate]
  cases h2 : m - i with
  | zero => simp [List.isPrefixOf]
  | succ k => simp [List.replicate_succ, List.isPrefixOf, h]

theorem breakCandidate_replicate_a (m : Nat) (c : Char) (cs : List Char)
    (h : (c == 'a') = false) :
    breakCandidate (List.replicate m 'a') (c :: cs) = none := by
  unfold breakCandidate
  rw [lastIndexOfSub_replicate_a m c cs h]

theorem findBreakPoint_diverging :
    findBreakPoint divergingText 0 2000 = 2000 := by
  unfold findBreakPoint
  dsimp only
  have hslice : jsSlice divergingText (0 ⊔ (2000 - 400)) 2000 = List.replicate 400 'a' := by
    rw [show ((0 : Int) ⊔ (2000 - 400)) = 1600 by norm_num]
    rw [show divergingText = List.replicate 2100 'a' from rfl]
    rw [jsSlice_replicate 2100 'a' 1600 2000 (by norm_num) (by norm_num) (by norm_num)]
    rfl
  rw [hslice]
  rw [breakCandidate_replicate_a 400 '\n' ['\n'] (by decide)]
  rw [show sentenceBreaks.filterMap (breakCandidate (List.replicate 400 'a')) = [] from by
    refine List.filterMap_eq_nil_iff.mpr ?_
    intro p hp
    fin_cases hp <;> exact breakCandidate_replicate_a 400 _ _ (by decide)]
  rw [breakCandidate_replicate_a 400 '\n' [] (by decide)]
  rw [breakCandidate_replicate_a 400 ' ' [] (by decide)]
  rfl

theorem chunkLoop_1900 : ∀ (fuel ci : Nat) (acc : List TextChunk),
    chunkLoop divergingText "doc1" defaultChunkOptions fuel 1900 ci acc = none := by
  intro fuel
  induction fuel with
  | zero => intro ci acc; rfl
  | succ n ih =>
    intro ci acc
    have hlen : ((divergingText.length : Nat) : Int) = 2100 := by
      norm_num [divergingText]
    have hcontent : jsTrim (jsSlice divergingText 1900 2100) = List.replicate 200 'a' := by
      rw [show divergingText = List.replicate 2100 'a' from rfl,
        jsSlice_replicate 2100 'a' 1900 2100 (by norm_num) (by norm_num) (by norm_num)]
      rw [show ((2100 - 1900 : Int)).toNat = 200 from rfl, jsTrim_replicate_a]
    have hcs : defaultChunkOptions.chunkSize = 2000 := rfl
    have hco : defaultChunkOptions.chunkOverlap = 200 := rfl
    have hcm : defaultChunkOptions.minChunkSize = 100 := rfl
    simp only [chunkLoop, hlen, hcs, hco, hcm, Nat.cast_ofNat]
    rw [if_pos (show (1900 : Int) < 2100 by norm_num)]
    simp only [if_neg (show ¬((1900 : Int) + 2000 < 2100) by norm_num)]
    simp only [hcontent, List.length_replicate]
    rw [if_neg (show ¬((2100 : Int) - 200 ≥ 2100 - 100) by norm_num)]
    simp only [if_pos (show (100 : Nat) ≤ 200 by norm_num)]
    rw [show ((2100 : Int) - 200) = 1900 by norm_num]
    exact ih (ci + 1) _

theorem chunkLoop_1800 : ∀ (fuel ci : Nat) (acc : List TextChunk),
    chunkLoop divergingText "doc1" defaultChunkOptions fuel 1800 ci acc = none := by
  intro fuel ci acc
  cases fuel with
  | zero => rfl
  | succ n =>
    have hlen : ((divergingText.length : Nat) : Int) = 2100 := by
      norm_num [divergingText]
    have hcontent : jsTrim (jsSlice divergingText 1800 2100) = List.replicate 300 'a' := by
      rw [show divergingText = List.replicate 2100 'a' from rfl,
        jsSlice_replicate 2100 'a' 1800 2100 (by norm_num) (by norm_num) (by norm_num)]
      rw [show ((2100 - 1800 : Int)).toNat = 300 from rfl, jsTrim_replicate_a]
    have hcs : defaultChunkOptions.chunkSize = 2000 := rfl
    have hco : defaultChunkOptions.chunkOverlap = 200 := rfl
    have hcm : defaultChunkOptions.minChunkSize = 100 := rfl
    simp only [chunkLoop, hlen, hcs, hco, hcm, Nat.cast_ofNat]
    rw [if_pos (show (1800 : Int) < 2100 by norm_num)]
    simp only [if_neg (show ¬((1800 : Int) + 2000 < 2100) by norm_num)]
    simp only [hcontent, List.length_replicate]
    rw [if_neg (show ¬((2100 : Int) - 200 ≥ 2100 - 100) by norm_num)]
    simp only [if_pos (show (100 : Nat) ≤ 300 by norm_num)]
    rw [show ((2100 : Int) - 200) = 1900 by norm_num]
    exact chunkLoop_1900 n (ci + 1) _

theorem chunkLoop_0 : ∀ (fuel ci : Nat) (acc : List TextChunk),
    chunkLoop divergingText "doc1" defaultChunkOptions fuel 0 ci acc = none := by
  intro fuel ci acc
  cases fuel with
  | zero => rfl
  | succ n =>
    have hlen : ((divergingText.length : Nat) : Int) = 2100 := by
      norm_num [divergingText]
    have hcontent : jsTrim (jsSlice divergingText 0 2000) = List.replicate 2000 'a' := by
      rw [show divergingText = List.replicate 2100 'a' from rfl,
        jsSlice_replicate 2100 'a' 0 2000 (by norm_num) (by norm_num) (by norm_num)]
      rw [show ((2000 - 0 : Int)).toNat = 2000 from rfl, jsTrim_replicate_a]
    have hcs : defaultChunkOptions.chunkSize = 2000 := rfl
    have hco : defaultChunkOptions.chunkOverlap = 200 := rfl
    have hcm : defaultChunkOptions.minChunkSize = 100 := rfl
    simp only [chunkLoop, hlen, hcs, hco, hcm, Nat.cast_ofNat]
    rw [if_pos (show (0 : Int) < 2100 by norm_num)]
    simp only [if_pos (show ((0 : Int) + 2000 < 2100) by norm_num)]
    rw [show ((0 : Int) + 2000) = 2000 by norm_num]
    simp only [findBreakPoint_diverging]
    simp only [hcontent, List.length_replicate]
    rw [if_neg (show ¬((2000 : Int) - 200 ≥ 2100 - 100) by norm_num)]
    simp only [if_pos (show (100 : Nat) ≤ 2000 by norm_num)]
    rw [show ((2000 : Int) - 200) = 1800 by norm_num]
    exact chunkLoop_1800 n (ci + 1) _

/-- The chunker never returns on `divergingText` under the default options,
whatever the iteration budget. -/
theorem chunkDivergesAux (fuel : Nat) :
    splitIntoChunks fuel divergingText "doc1" defaultChunkOptions = none := by
  have hnorm : normalizeText divergingText = divergingText :=
    normalizeText_replicate_a 2100
  simp only [splitIntoChunks, hnorm]
  rw [if_neg (show ¬(divergingText.length ≤ defaultChunkOptions.chunkSize) by
    norm_num [divergingText, defaultChunkOptions])]
  exact chunkLoop_0 fuel 0 []

/-- C3: the claim states that `splitIntoChunks` terminates for every input
text and every option set because the loop guard guarantees progress.  The
code contradicts it — and its own `// Prevent infinite loop` comment: already
under the default options, on a text of 2100 letters `'a'`, the `while` loop
never exits (this theorem: no iteration budget `fuel` suffices), because the
break test `endIndex − overlap ≥ length − minChunkSize` would need
`endIndex ≥ length + 100`, yet `endIndex ≤ length` always. -/
theorem splitIntoChunks_diverges_on_default_options (fuel : Nat) :
    splitIntoChunks fuel divergingText "doc1" defaultChunkOptions = none :=
  chunkDivergesAux fuel

/-- C4: the claim states that under the default options the `[start, end)`
ranges of the chunks emitted by `splitIntoChunks` cover every character index
of the normalized text.  On the 2100-character text `divergingText` the
chunker never returns a chunk sequence at all (it fails to terminate), so no
emitted chunk sequence covers the text: no fuel yields a result, covering or
not. -/
theorem splitIntoChunks_coverage_fails (fuel : Nat) (chunks : List TextChunk) :
    ¬(splitIntoChunks fuel divergingText "doc1" defaultChunkOptions = some chunks ∧
      ∀ i : Int, 0 ≤ i → i < 2100 →
        ∃ c ∈ chunks, c.metadata.startIndex ≤ i ∧ i < c.metadata.endIndex) := by
  intro h
  rw [chunkDivergesAux fuel] at h
  exact Option.noConfusion h.1

/-! ## Lemmas and claim C7: citation deduplication -/

theorem dedupByUrlSeen_congr (l : List Citation) : ∀ (seen1 seen2 : List String),
    (∀ u, u ∈ seen1 ↔ u ∈ seen2) →
    dedupByUrlSeen seen1 l = dedupByUrlSeen seen2 l := by
  induction l with
  | nil => intro _ _ _; rfl
  | cons c rest ih =>
    intro seen1 seen2 h
    simp only [dedupByUrlSeen]
    by_cases hm : c.url ∈ seen1
    · rw [if_pos hm, if_pos ((h c.url).mp hm)]
      exact ih seen1 seen2 h
    · rw [if_neg hm, if_neg (fun hx => hm ((h c.url).mpr hx))]
      refine congrArg _ ?_
      refine ih _ _ ?_
      intro u
      simp only [List.mem_cons]
      exact or_congr Iff.rfl (h u)

theorem dedupByUrlSeen_cons_filter (l : List Citation) : ∀ (u : String) (seen : List String),
    dedupByUrlSeen (u :: seen) l
      = dedupByUrlSeen seen (l.filter (fun x => !(x.url == u))) := by
  induction l with
  | nil => intro _ _; rfl
  | cons c rest ih =>
    intro u seen
    by_cases hcu : c.url = u
    · have hf : (fun x => !(x.url == u)) c = false := by simp [hcu]
      rw [List.filter_cons_of_neg (by simp [hf])]
      simp only [dedupByUrlSeen]
      rw [if_pos (by simp [hcu])]
      exact ih u seen
    · have hf : (fun x => !(x.url == u)) c = true := by simp [hcu]
      rw [List.filter_cons_of_pos (by simp [hf])]
      simp only [dedupByUrlSeen]
      by_cases hs : c.url ∈ seen
      · rw [if_pos (by simp [hs]), if_pos hs]
        exact ih u seen
      · rw [if_neg (by simp [hcu, hs]), if_neg hs]
        refine congrArg _ ?_
        rw [dedupByUrlSeen_congr rest (c.url :: u :: seen) (u :: c.url :: seen)
          (by intro v; simp only [List.mem_cons]; tauto)]
        exact ih u (c.url :: seen)

theorem dedupeByUrlSpec_eq_seen (l : List Citation) :
    dedupeByUrlSpec l = dedupByUrlSeen [] l := by
  induction l using dedupeByUrlSpec.induct with
  | case1 => rw [dedupeByUrlSpec]; rfl
  | case2 c rest ih =>
    rw [dedupeByUrlSpec, ih, dedupByUrlSeen, if_neg (by simp),
      dedupByUrlSeen_cons_filter]


theorem dedupCode_general (l : List Citation) : ∀ (pre : List Citation),
    ((List.enumFrom pre.length l).filter
        (fun p => p.1 == (pre ++ l).findIdx (fun c2 => c2.url == p.2.url))).map (·.2)
      = dedupByUrlSeen (pre.map (·.url)) l := by
  induction l with
  | nil => intro pre; rfl
  | cons c rest ih =>
    intro pre
    rw [List.enumFrom_cons]
    have happ : pre ++ c :: rest = (pre ++ [c]) ++ rest := by
      rw [List.append_cons]
    have htail :
        ((List.enumFrom (pre.length + 1) rest).filter
            (fun p => p.1 == (pre ++ c :: rest).findIdx (fun c2 => c2.url == p.2.url))).map (·.2)
          = dedupByUrlSeen ((pre ++ [c]).map (·.url)) rest := by
      rw [happ]
      rw [show pre.length + 1 = (pre ++ [c]).length by simp]
      exact ih (pre ++ [c])
    by_cases hseen : c.url ∈ pre.map (·.url)
    · have hex : ∃ y ∈ pre, (fun c2 => c2.url == c.url) y = true := by
        obtain ⟨y, hy, hyu⟩ := List.mem_map.mp hseen
        exact ⟨y, hy, by simp [hyu]⟩
      have hlt : (pre.findIdx (fun c2 => c2.url == c.url)) < pre.length :=
        List.findIdx_lt_length_of_exists hex
      have hidx : (pre ++ c :: rest).findIdx (fun c2 => c2.url == c.url)
          = pre.findIdx (fun c2 => c2.url == c.url) := by
        rw [List.findIdx_append, if_pos hlt]
      rw [List.filter_cons_of_neg (by simp [hidx]; omega)]
      rw [htail]
      rw [dedupByUrlSeen_congr rest ((pre ++ [c]).map (·.url)) (pre.map (·.url))
        (by intro v; simp only [List.map_append, List.mem_append, List.map_cons,
              List.map_nil, List.mem_singleton, List.mem_cons]
            constructor
            · rintro (hv | hv)
              · exact hv
              · simp at hv
                rw [hv]
                exact hseen
            · intro hv
              exact Or.inl hv)]
      rw [show dedupByUrlSeen (pre.map (·.url)) (c :: rest)
          = dedupByUrlSeen (pre.map (·.url)) rest from by
        rw [dedupByUrlSeen, if_pos hseen]]
    · have hnone : ∀ y ∈ pre, (fun c2 => c2.url == c.url) y = false := by
        intro y hy
        simp only [beq_eq_false_iff_ne, ne_eq]
        intro hyu
        exact hseen (List.mem_map.mpr ⟨y, hy, hyu⟩)
      have hpre : pre.findIdx (fun c2 => c2.url == c.url) = pre.length :=
        List.findIdx_eq_length.mpr hnone
      have hidx : (pre ++ c :: rest).findIdx (fun c2 => c2.url == c.url) = pre.length := by
        rw [List.findIdx_append, if_neg (by omega)]
        rw [List.findIdx_cons]
        simp [hpre]
      rw [List.filter_cons_of_pos (by simp [hidx])]
      rw [List.map_cons]
      rw [htail]
      rw [dedupByUrlSeen_congr rest ((pre ++ [c]).map (·.url)) (c.url :: pre.map (·.url))
        (by intro v; simp only [List.map_append, List.mem_append, List.map_cons,
              List.map_nil, List.mem_singleton, List.mem_cons]
            tauto)]
      rw [show dedupByUrlSeen (pre.map (·.url)) (c :: rest)
          = c :: dedupByUrlSeen (c.url :: pre.map (·.url)) rest from by
        rw [dedupByUrlSeen, if_neg hseen]]

theorem dedupCitationsByUrl_eq_seen (l : List Citation) :
    dedupCitationsByUrl l = dedupByUrlSeen [] l := by
  unfold dedupCitationsByUrl
  rw [List.enum_eq_enumFrom]
  have h := dedupCode_general l []
  simpa using h


theorem dedupByUrlSeen_mem_url (l : List Citation) : ∀ (seen : List String),
    ∀ c ∈ dedupByUrlSeen seen l, c.url ∉ seen := by
  induction l with
  | nil => intro seen c hc; exact absurd hc (List.not_mem_nil c)
  | cons c0 rest ih =>
    intro seen c hc
    rw [dedupByUrlSeen] at hc
    by_cases hm : c0.url ∈ seen
    · rw [if_pos hm] at hc
      exact ih seen c hc
    · rw [if_neg hm] at hc
      rcases List.mem_cons.mp hc with h | h
      · rw [h]; exact hm
      · have := ih (c0.url :: seen) c h
        intro hcs
        exact this (List.mem_cons_of_mem _ hcs)

theorem dedupByUrlSeen_nodup (l : List Citation) : ∀ (seen : List String),
    ((dedupByUrlSeen seen l).map (·.url)).Nodup := by
  induction l with
  | nil => intro seen; simp [dedupByUrlSeen]
  | cons c0 rest ih =>
    intro seen
    rw [dedupByUrlSeen]
    by_cases hm : c0.url ∈ seen
    · rw [if_pos hm]; exact ih seen
    · rw [if_neg hm, List.map_cons, List.nodup_cons]
      constructor
      · intro hmem
        obtain ⟨c, hc, hcu⟩ := List.mem_map.mp hmem
        have := dedupByUrlSeen_mem_url rest (c0.url :: seen) c hc
        rw [hcu] at this
        exact this (List.mem_cons_self _ _)
      · exact ih (c0.url :: seen)

theorem dedupByUrlSeen_sublist (l : List Citation) : ∀ (seen : List String),
    (dedupByUrlSeen seen l).Sublist l := by
  induction l with
  | nil => intro seen; simp [dedupByUrlSeen]
  | cons c0 rest ih =>
    intro seen
    rw [dedupByUrlSeen]
    by_cases hm : c0.url ∈ seen
    · rw [if_pos hm]; exact (ih seen).cons c0
    · rw [if_neg hm]; exact (ih (c0.url :: seen)).cons₂ c0

theorem dedupByUrlSeen_covers (l : List Citation) : ∀ (seen : List String),
    ∀ c ∈ l, c.url ∈ seen ∨ ∃ c2 ∈ dedupByUrlSeen seen l, c2.url = c.url := by
  induction l with
  | nil => intro seen c hc; exact absurd hc (List.not_mem_nil c)
  | cons c0 rest ih =>
    intro seen c hc
    rw [dedupByUrlSeen]
    by_cases hm : c0.url ∈ seen
    · rw [if_pos hm]
      rcases List.mem_cons.mp hc with h | h
      · left; rw [h]; exact hm
      · exact ih seen c h
    · rw [if_neg hm]
      rcases List.mem_cons.mp hc with h | h
      · right
        exact ⟨c0, List.mem_cons_self _ _, by rw [h]⟩
      · rcases ih (c0.url :: seen) c h with h2 | h2
        · rcases List.mem_cons.mp h2 with h3 | h3
          · right
            exact ⟨c0, List.mem_cons_self _ _, h3.symm⟩
          · left; exact h3
        · right
          obtain ⟨c2, hc2, hc2u⟩ := h2
          exact ⟨c2, List.mem_cons_of_mem _ hc2, hc2u⟩

theorem synthesizeCitations_dedup_first_wins (results : List DeepSearchResult) :
    synthesizeCitations results = dedupeByUrlSpec (results.flatMap (·.sources)) ∧
    ((synthesizeCitations results).map (·.url)).Nodup ∧
    (synthesizeCitations results).Sublist (results.flatMap (·.sources)) ∧
    ∀ c ∈ results.flatMap (·.sources),
      ∃ c2 ∈ synthesizeCitations results, c2.url = c.url := by
  have he : synthesizeCitations results
      = dedupByUrlSeen [] (results.flatMap (·.sources)) := by
    unfold synthesizeCitations
    exact dedupCitationsByUrl_eq_seen _
  refine ⟨?_, ?_, ?_, ?_⟩
  · rw [he, dedupeByUrlSpec_eq_seen]
  · rw [he]; exact dedupByUrlSeen_nodup _ _
  · rw [he]; exact dedupByUrlSeen_sublist _ _
  · rw [he]
    intro c hc
    rcases dedupByUrlSeen_covers _ [] c hc with h | h
    · exact absurd h (List.not_mem_nil _)
    · exact h

/-! ## Claim C1: `addDocument` failure atomicity -/

/-- C1: the claim states that when embedding generation fails inside
`addDocument`, the index state is unchanged — in particular the document
metadata store does not end up registering the document.  The code writes the
document metadata BEFORE the embedding call and performs no rollback: at this
concrete failing input the error is re-raised and no chunk is appended, but
the document stays registered with zero chunks. -/
theorem addDocument_failure_leaves_document_registered :
    let doc : Document :=
      { id := "d1", name := "doc one", type := "txt",
        content := "hello world", metadata := [], createdAt := 0 }
    let chunks : List ChunkInput :=
      [{ id := "d1-chunk-0", documentId := "d1",
         content := "hello world",
         metadata := { startIndex := 0, endIndex := 11, pageNumber := none } }]
    let r := addDocument emptyDB doc chunks (Except.error "Embedding API error")
    r.2 = some "Embedding API error" ∧
    r.1.vectorStore = [] ∧
    getChunkCount r.1 "d1" = 0 ∧
    getDocument r.1 "d1" =
      some { id := "d1", name := "doc one", type := "txt",
             content := "hello world", createdAt := 0, metadata := [] } :=
  ⟨rfl, rfl, rfl, rfl⟩

/-! ## Claims C9 and C10: parser dispatch, empty document filter -/

/-- C9 (counterexample): the extension `markdown` is outside the claimed
supported set `getSupportedExtensions`, yet `parseFile` dispatches it to the
plain-text parser instead of raising `UnsupportedFormat`. -/
theorem parseFile_markdown_counterexample :
    extensionOf "notes.markdown" ∉ getSupportedExtensions ∧
    parseFileDispatch "notes.markdown" = some FileParserKind.txt :=
  ⟨by decide, rfl⟩

/-- C9 (amended): `parseFile` fails with `UnsupportedFormat` exactly when the
lower-cased extension is outside {pdf, docx, txt, md, markdown, vtt, srt,
pptx} — the claimed set plus `markdown`, which the dispatch also sends to the
text parser. -/
theorem parseFileDispatch_unsupported_iff (filename : String) :
    parseFileDispatch filename = none ↔
      extensionOf filename ∉
        ["pdf", "docx", "txt", "md", "markdown", "vtt", "srt", "pptx"] := by
  unfold parseFileDispatch
  split <;> simp_all

/-- C10: passing the empty document-id filter to `searchSimilar` behaves
identically to omitting the filter: the `documentIds && documentIds.length > 0`
guard skips filtering for an empty array, so every record stays a candidate. -/
theorem searchSimilar_empty_filter_eq_no_filter (st : DBState)
    (queryEmbedding : List ℝ) (topK : Nat) (now : Nat) :
    searchSimilar st queryEmbedding topK (some []) now
      = searchSimilar st queryEmbedding topK none now := rfl

/-! ## Claim C6: embedding alignment -/

/-- C6: `generateEmbeddings` sorts the provider's response items by their
reported index, so whenever the response carries the indices `0..N−1` in any
order (`N` the number of input texts), exactly `N` vectors come back and the
`i`-th returned vector is the one the provider tagged with index `i`. -/
theorem generateEmbeddings_alignment (texts : List String) (data : List EmbeddingItem)
    (h : (data.map (fun it => it.index)).Perm (List.range texts.length)) :
    (generateEmbeddings texts data).length = texts.length ∧
    ∀ item ∈ data,
      (generateEmbeddings texts data).get? item.index = some item.embedding := by
  have htrans : ∀ a b c : EmbeddingItem,
      (decide (a.index ≤ b.index)) = true → (decide (b.index ≤ c.index)) = true →
      (decide (a.index ≤ c.index)) = true := by
    intro a b c hab hbc
    simp only [decide_eq_true_eq] at *
    omega
  have htotal : ∀ a b : EmbeddingItem,
      ((decide (a.index ≤ b.index)) || (decide (b.index ≤ a.index))) = true := by
    intro a b
    rcases Nat.le_total a.index b.index with h1 | h1 <;> simp [h1]
  set le := fun a b : EmbeddingItem => decide (a.index ≤ b.index) with hle
  set s := data.mergeSort le with hs
  have hperm : s.Perm data := List.mergeSort_perm data le
  have hpermIdx : (s.map (fun it => it.index)).Perm (List.range texts.length) :=
    (hperm.map _).trans h
  have hsorted : List.Pairwise (fun a b => le a b = true) s :=
    List.sorted_mergeSort htrans htotal data
  have hsortedIdx : List.Sorted (· ≤ ·) (s.map (fun it => it.index)) := by
    rw [List.Sorted, List.pairwise_map]
    refine hsorted.imp ?_
    intro a b hab
    rw [hle] at hab
    exact of_decide_eq_true hab
  have hrange : s.map (fun it => it.index) = List.range texts.length :=
    List.eq_of_perm_of_sorted hpermIdx hsortedIdx (List.pairwise_le_range _)
  have hlens : s.length = texts.length := by
    have := congrArg List.length hrange
    simpa using this
  constructor
  · simp only [generateEmbeddings]
    rw [← hle, ← hs]
    simp [hlens]
  · intro item hitem
    have hitem' : item ∈ s := hperm.mem_iff.mpr hitem
    obtain ⟨⟨k, hk⟩, hks⟩ := List.mem_iff_get.mp hitem'
    have hk' : k < (s.map (fun it => it.index)).length := by simpa using hk
    have hsk : s[k] = item := by
      rw [← hks]
      simp [List.get_eq_getElem]
    have h1 : (s.map (fun it => it.index)).get? k = some item.index := by
      rw [List.get?_eq_get hk']
      simp [hsk]
    rw [hrange] at h1
    have h2 : (List.range texts.length).get? k = some k := by
      refine List.get?_range ?_
      omega
    rw [h2] at h1
    have hidx : item.index = k := (Option.some.injEq _ _ ▸ h1).symm
    simp only [generateEmbeddings]
    rw [← hle, ← hs, hidx]
    rw [List.get?_map]
    rw [List.get?_eq_get hk]
    simp [hsk]

/-- Witness for C6: two texts, response items in reverse index order. -/
theorem generateEmbeddings_alignment_witness :
    (((([⟨1, [(2 : ℝ)]⟩, ⟨0, [(1 : ℝ)]⟩] : List EmbeddingItem)).map
        (fun it => it.index)).Perm (List.range (["t0", "t1"] : List String).length)) ∧
    ((generateEmbeddings ["t0", "t1"] [⟨1, [(2 : ℝ)]⟩, ⟨0, [(1 : ℝ)]⟩]).length
        = (["t0", "t1"] : List String).length ∧
      ∀ item ∈ ([⟨1, [(2 : ℝ)]⟩, ⟨0, [(1 : ℝ)]⟩] : List EmbeddingItem),
        (generateEmbeddings ["t0", "t1"] [⟨1, [(2 : ℝ)]⟩, ⟨0, [(1 : ℝ)]⟩]).get?
            item.index = some item.embedding) :=
  ⟨by decide, generateEmbeddings_alignment ["t0", "t1"] _ (by decide)⟩

/-! ## Claim C8: cosine similarity bounds -/

theorem sumSquares_nonneg (a : List ℝ) : 0 ≤ sumSquares a := by
  refine List.sum_nonneg ?_
  intro x hx
  obtain ⟨y, _, hy⟩ := List.mem_map.mp hx
  rw [← hy]
  exact mul_self_nonneg y

theorem dotProduct_self (a : List ℝ) : dotProduct a a = sumSquares a := by
  unfold dotProduct sumSquares
  rw [List.zipWith_same]

theorem dotProduct_eq_sum (a : List ℝ) : ∀ (b : List ℝ), a.length = b.length →
    dotProduct a b = ∑ i ∈ Finset.range a.length, a.getD i 0 * b.getD i 0 := by
  induction a with
  | nil =>
    intro b _
    simp [dotProduct]
  | cons x a' ih =>
    intro b hb
    cases b with
    | nil => simp at hb
    | cons y b' =>
      have hlen : a'.length = b'.length := by simpa using hb
      simp only [dotProduct, List.zipWith_cons_cons, List.sum_cons, List.length_cons]
      rw [Finset.sum_range_succ']
      simp only [List.getD_cons_succ, List.getD_cons_zero]
      rw [← dotProduct]
      rw [ih b' hlen]
      ring

theorem sumSquares_eq_sum (a : List ℝ) :
    sumSquares a = ∑ i ∈ Finset.range a.length, (a.getD i 0) ^ 2 := by
  induction a with
  | nil => simp [sumSquares]
  | cons x a' ih =>
    simp only [sumSquares, List.map_cons, List.sum_cons, List.length_cons]
    rw [Finset.sum_range_succ']
    simp only [List.getD_cons_succ, List.getD_cons_zero]
    rw [← sumSquares, ih]
    ring

/-- Cauchy–Schwarz for the list dot product. -/
theorem abs_dotProduct_le (a b : List ℝ) (h : a.length = b.length) :
    |dotProduct a b| ≤ Real.sqrt (sumSquares a) * Real.sqrt (sumSquares b) := by
  have hub : dotProduct a b ≤ Real.sqrt (sumSquares a) * Real.sqrt (sumSquares b) := by
    rw [dotProduct_eq_sum a b h, sumSquares_eq_sum a, sumSquares_eq_sum b, ← h]
    exact Real.sum_mul_le_sqrt_mul_sqrt _ _ _
  have hlb : -dotProduct a b ≤ Real.sqrt (sumSquares a) * Real.sqrt (sumSquares b) := by
    have hnegb : a.length = (b.map (fun x => -x)).length := by simpa using h
    have h1 : -dotProduct a b = dotProduct a (b.map (fun x => -x)) := by
      rw [dotProduct_eq_sum a b h, dotProduct_eq_sum a _ hnegb]
      rw [← Finset.sum_neg_distrib]
      refine Finset.sum_congr rfl ?_
      intro i hi
      have he : (b.map (fun x => -x)).getD i 0 = -(b.getD i 0) := by
        rcases lt_or_ge i b.length with hib | hib
        · rw [List.getD_eq_getElem _ _ (by simpa using hib), List.getD_eq_getElem _ _ hib]
          simp
        · rw [List.getD_eq_default _ _ (by simpa using hib), List.getD_eq_default _ _ hib]
          simp
      rw [he]
      ring
    have h2 : sumSquares (b.map (fun x => -x)) = sumSquares b := by
      unfold sumSquares
      rw [List.map_map]
      congr 1
      refine List.map_congr_left ?_
      intro x _
      simp
    rw [h1]
    calc dotProduct a (b.map (fun x => -x))
        ≤ Real.sqrt (sumSquares a) * Real.sqrt (sumSquares (b.map (fun x => -x))) := by
          rw [dotProduct_eq_sum a _ hnegb, sumSquares_eq_sum a, sumSquares_eq_sum _, ← hnegb]
          exact Real.sum_mul_le_sqrt_mul_sqrt _ _ _
      _ = Real.sqrt (sumSquares a) * Real.sqrt (sumSquares b) := by rw [h2]
  exact abs_le.mpr ⟨by linarith, hub⟩

/-- C8: for equal-length vectors, `cosineSimilarity` is exactly 0 when either
norm is zero; it lies in `[-1, 1]` when both vectors are non-zero; and the
similarity of a non-zero vector with itself is exactly 1. -/
theorem cosineSimilarity_bounds (a b : List ℝ) (hlen : a.length = b.length) :
    (Real.sqrt (sumSquares a) = 0 ∨ Real.sqrt (sumSquares b) = 0 →
        cosineSimilarity a b = some 0) ∧
    (Real.sqrt (sumSquares a) ≠ 0 → Real.sqrt (sumSquares b) ≠ 0 →
        ∃ r, cosineSimilarity a b = some r ∧ -1 ≤ r ∧ r ≤ 1) ∧
    (Real.sqrt (sumSquares a) ≠ 0 → cosineSimilarity a a = some 1) := by
  refine ⟨?_, ?_, ?_⟩
  · intro h0
    unfold cosineSimilarity cosineSimilarityVal
    rw [if_pos hlen, if_pos h0]
  · intro hA hB
    unfold cosineSimilarity cosineSimilarityVal
    rw [if_pos hlen, if_neg (by tauto)]
    refine ⟨_, rfl, ?_, ?_⟩
    · have hApos : 0 < Real.sqrt (sumSquares a) :=
        lt_of_le_of_ne (Real.sqrt_nonneg _) (Ne.symm hA)
      have hBpos : 0 < Real.sqrt (sumSquares b) :=
        lt_of_le_of_ne (Real.sqrt_nonneg _) (Ne.symm hB)
      have habs := abs_dotProduct_le a b hlen
      have hlow := (abs_le.mp habs).1
      rw [le_div_iff (by positivity)]
      linarith
    · have hApos : 0 < Real.sqrt (sumSquares a) :=
        lt_of_le_of_ne (Real.sqrt_nonneg _) (Ne.symm hA)
      have hBpos : 0 < Real.sqrt (sumSquares b) :=
        lt_of_le_of_ne (Real.sqrt_nonneg _) (Ne.symm hB)
      have habs := abs_dotProduct_le a b hlen
      rw [div_le_one (by positivity)]
      exact (abs_le.mp habs).2
  · intro hA
    unfold cosineSimilarity cosineSimilarityVal
    rw [if_pos rfl, if_neg (by tauto)]
    rw [dotProduct_self]
    rw [Real.mul_self_sqrt (sumSquares_nonneg a)]
    have hSA : sumSquares a ≠ 0 := by
      intro h0
      exact hA (by rw [h0, Real.sqrt_zero])
    rw [div_self hSA]

/-- Witness for C8 at the concrete pair `[1, 0]`, `[0, 1]`. -/
theorem cosineSimilarity_bounds_witness :
    (([(1 : ℝ), 0] : List ℝ).length = ([(0 : ℝ), 1] : List ℝ).length) ∧
    ((Real.sqrt (sumSquares [(1 : ℝ), 0]) = 0 ∨ Real.sqrt (sumSquares [(0 : ℝ), 1]) = 0 →
        cosineSimilarity [(1 : ℝ), 0] [(0 : ℝ), 1] = some 0) ∧
      (Real.sqrt (sumSquares [(1 : ℝ), 0]) ≠ 0 → Real.sqrt (sumSquares [(0 : ℝ), 1]) ≠ 0 →
        ∃ r, cosineSimilarity [(1 : ℝ), 0] [(0 : ℝ), 1] = some r ∧ -1 ≤ r ∧ r ≤ 1) ∧
      (Real.sqrt (sumSquares [(1 : ℝ), 0]) ≠ 0 →
        cosineSimilarity [(1 : ℝ), 0] [(1 : ℝ), 0] = some 1)) :=
  ⟨rfl, cosineSimilarity_bounds [(1 : ℝ), 0] [(0 : ℝ), 1] rfl⟩

/-! ## Claim C2: research agent error handling -/

theorem searchSubQuestion_error_iff {ε : Type} (q : String) (resp : Except ε String)
    (e : ε) : searchSubQuestion q resp = .error e ↔ resp = .error e := by
  cases resp <;> simp [searchSubQuestion]

theorem searchLoop_fst {ε : Type} (searchResp : Nat → Except ε String) :
    ∀ (qs : List String) (i : Nat),
    (searchLoop searchResp qs i).1 = gatheredResults searchResp qs i := by
  intro qs
  induction qs with
  | nil => intro i; rfl
  | cons q rest ih =>
    intro i
    simp only [searchLoop, gatheredResults]
    cases h : searchSubQuestion q (searchResp i) with
    | error e => rfl
    | ok r => simpa using ih (i + 1)

theorem searchLoop_snd {ε : Type} (searchResp : Nat → Except ε String) :
    ∀ (qs : List String) (i : Nat) (e : ε),
    (searchLoop searchResp qs i).2 = some e → ∃ j, searchResp j = .error e := by
  intro qs
  induction qs with
  | nil => intro i e h; simp [searchLoop] at h
  | cons q rest ih =>
    intro i e h
    simp only [searchLoop] at h
    cases h2 : searchSubQuestion q (searchResp i) with
    | error e2 =>
      rw [h2] at h
      simp at h
      rw [← h]
      exact ⟨i, (searchSubQuestion_error_iff q _ e2).mp h2⟩
    | ok r =>
      rw [h2] at h
      simp at h
      exact ih (i + 1) e h

/-- C2: whatever the outcome of the three phases, `research` re-raises an
error iff it leaves the query in the `error` status (`complete` otherwise),
records no synthesis and no citations on error, and always leaves the parsed
sub-questions and the sub-question results gathered before the first failure
on the returned `DeepSearchQuery`; the re-raised error is one actually thrown
by a phase.  The returned object is final — the model returns exactly once,
so there is no transition out of `error`. -/
theorem research_error_handling {ε : Type} (question : String) (maxSubQuestions : Nat)
    (decompResp : Except ε String) (searchResp : Nat → Except ε String)
    (synthResp : Except ε String) :
    let r : DeepSearchQuery × Option ε :=
      research question maxSubQuestions decompResp searchResp synthResp
    (r.2.isSome ↔ r.1.status = DeepSearchStatus.error) ∧
    (r.2 = none ↔ r.1.status = DeepSearchStatus.complete) ∧
    (r.1.status = DeepSearchStatus.error → r.1.synthesis = none ∧ r.1.citations = none) ∧
    (r.1.subQuestions = match decompResp with
      | .error _ => []
      | .ok content => parseSubQuestions content maxSubQuestions question) ∧
    (r.1.searchResults = match decompResp with
      | .error _ => []
      | .ok content =>
        gatheredResults searchResp (parseSubQuestions content maxSubQuestions question) 0) ∧
    (∀ e, r.2 = some e →
      decompResp = .error e ∨ (∃ i, searchResp i = .error e) ∨ synthResp = .error e) := by
  cases decompResp with
  | error e =>
    refine ⟨by simp [research], by simp [research], by simp [research], rfl, rfl, ?_⟩
    intro e2 h2
    simp [research] at h2
    subst h2
    exact Or.inl rfl
  | ok content =>
    simp only [research]
    rcases hsl : searchLoop searchResp (parseSubQuestions content maxSubQuestions question) 0
      with ⟨results, err⟩
    have hres : results = gatheredResults searchResp
        (parseSubQuestions content maxSubQuestions question) 0 := by
      rw [← searchLoop_fst searchResp _ 0, hsl]
    cases err with
    | some e =>
      refine ⟨by simp, by simp, by simp, rfl, hres, ?_⟩
      intro e2 h2
      simp at h2
      subst h2
      refine Or.inr (Or.inl ?_)
      exact searchLoop_snd searchResp _ 0 e (by rw [hsl])
    | none =>
      cases synthResp with
      | error e =>
        refine ⟨by simp, by simp, by simp, rfl, hres, ?_⟩
        intro e2 h2
        simp at h2
        subst h2
        exact Or.inr (Or.inr rfl)
      | ok synthesis =>
        refine ⟨by simp, by simp, by simp, rfl, hres, ?_⟩
        intro e2 h2
        simp at h2

/-! ## Claim C5: searchSimilar ranking -/

theorem scoreCandidates_some (queryEmbedding : List ℝ) :
    ∀ (l : List VectorRecord) (scored : List (VectorRecord × ℝ)),
    scoreCandidates queryEmbedding l = some scored →
    scored = l.map (fun rec => (rec, cosineSimilarityVal queryEmbedding rec.embedding)) := by
  intro l
  induction l with
  | nil =>
    intro scored h
    simp only [scoreCandidates] at h
    simp at h
    rw [h]
    rfl
  | cons record rest ih =>
    intro scored h
    simp only [scoreCandidates] at h
    cases hc : cosineSimilarity queryEmbedding record.embedding with
    | none => rw [hc] at h; simp at h
    | some score =>
      rw [hc] at h
      cases hs : scoreCandidates queryEmbedding rest with
      | none => rw [hs] at h; simp at h
      | some scored' =>
        rw [hs] at h
        simp at h
        have hval : score = cosineSimilarityVal queryEmbedding record.embedding := by
          unfold cosineSimilarity at hc
          by_cases hl : queryEmbedding.length = record.embedding.length
          · rw [if_pos hl] at hc
            exact (Option.some.injEq _ _ ▸ hc).symm
          · rw [if_neg hl] at hc
            exact absurd hc (by simp)
        rw [← h, List.map_cons, ← ih scored' hs, hval]

theorem mergeSort_filter_stable {α : Type} (le : α → α → Bool)
    (htrans : ∀ a b c, le a b = true → le b c = true → le a c = true)
    (htotal : ∀ a b, (le a b || le b a) = true)
    (p : α → Bool) (hp : ∀ x y, p x = true → p y = true → le x y = true)
    (l : List α) : (l.mergeSort le).filter p = l.filter p := by
  have hperm : (l.mergeSort le).Perm l := List.mergeSort_perm l le
  have hpw : List.Pairwise (fun a b => le a b = true) (l.filter p) := by
    refine List.pairwise_of_forall_mem_list ?_
    intro a ha b hb
    exact hp a b (List.mem_filter.mp ha).2 (List.mem_filter.mp hb).2
  have hsub : (l.filter p).Sublist (l.mergeSort le) :=
    List.sublist_mergeSort htrans htotal hpw (List.filter_sublist l)
  have hsub2 : (l.filter p).Sublist ((l.mergeSort le).filter p) := by
    have h1 : (l.filter p).filter p = l.filter p :=
      List.filter_eq_self.mpr (fun a ha => (List.mem_filter.mp ha).2)
    rw [← h1]
    exact List.Sublist.filter p hsub
  have hlen : ((l.mergeSort le).filter p).length = (l.filter p).length :=
    (hperm.filter p).length_eq
  exact (hsub2.eq_of_length hlen.symm).symm

/-- C5: whenever `searchSimilar` returns a result list, that list has at most
`topK` entries, its scores are in descending order, it consists of top-scored
elements of exactly the candidate records (the remaining candidates all score
no higher than any returned entry), score ties are broken by insertion order
(the returned ties are a prefix of the candidate list's equally-scored
entries, in order), and an empty index yields the empty result rather than an
error (last two conjuncts). -/
theorem searchSimilar_spec (st : DBState) (queryEmbedding : List ℝ) (topK : Nat)
    (documentIds : Option (List String)) (now : Nat) (out : List RAGSearchResult)
    (H : searchSimilar st queryEmbedding topK documentIds now = some out) :
    out.length ≤ topK ∧
    List.Pairwise (fun x y => y.score ≤ x.score) out ∧
    (∃ rest, ((out.map searchResultKey) ++ rest).Perm
        ((searchCandidates st documentIds).map (candidateKey queryEmbedding)) ∧
      ∀ p ∈ rest, ∀ r ∈ out, p.2 ≤ r.score) ∧
    (∀ s : ℝ, ((out.map searchResultKey).filter (fun p => decide (p.2 = s))) <+:
        (((searchCandidates st documentIds).map (candidateKey queryEmbedding)).filter
          (fun p => decide (p.2 = s)))) ∧
    (st.vectorStore = [] → out = []) ∧
    searchSimilar { vectorStore := [], documentStore := st.documentStore }
      queryEmbedding topK documentIds now = some [] := by
  unfold searchSimilar at H
  by_cases hemp : st.vectorStore.length = 0
  · rw [if_pos hemp] at H
    have hout : out = [] := by simpa using H.symm
    subst hout
    refine ⟨Nat.zero_le _, List.Pairwise.nil, ?_, ?_, fun _ => rfl, rfl⟩
    · exact ⟨(searchCandidates st documentIds).map (candidateKey queryEmbedding),
        by simp, by simp⟩
    · intro s
      simp only [List.map_nil, List.filter_nil]
      exact ⟨_, rfl⟩
  · rw [if_neg hemp] at H
    cases hsc : scoreCandidates queryEmbedding (searchCandidates st documentIds) with
    | none => rw [hsc] at H; exact absurd H (by simp)
    | some scored =>
      rw [hsc] at H
      simp only [Option.some.injEq] at H
      have hout : out = ((scored.mergeSort scoreDescLe).take topK).map
          (fun p => mkRAGSearchResult st p.1 p.2 now) := H.symm
      have hscored : scored = (searchCandidates st documentIds).map
          (fun rec => (rec, cosineSimilarityVal queryEmbedding rec.embedding)) :=
        scoreCandidates_some queryEmbedding _ scored hsc
      have htrans : ∀ a b c : VectorRecord × ℝ, scoreDescLe a b = true →
          scoreDescLe b c = true → scoreDescLe a c = true := by
        intro a b c hab hbc
        unfold scoreDescLe at *
        simp only [decide_eq_true_eq] at *
        linarith
      have htotal : ∀ a b : VectorRecord × ℝ,
          (scoreDescLe a b || scoreDescLe b a) = true := by
        intro a b
        unfold scoreDescLe
        rcases le_total a.2 b.2 with h1 | h1 <;> simp [h1]
      have hperm : (scored.mergeSort scoreDescLe).Perm scored :=
        List.mergeSort_perm scored scoreDescLe
      have hpw : List.Pairwise (fun a b => scoreDescLe a b = true)
          (scored.mergeSort scoreDescLe) :=
        List.sorted_mergeSort htrans htotal scored
      set sorted := scored.mergeSort scoreDescLe with hsortdef
      have hsplit : sorted.take topK ++ sorted.drop topK = sorted :=
        List.take_append_drop topK sorted
      -- the projection shared by both sides
      have hkey1 : out.map searchResultKey
          = (sorted.take topK).map
              (fun p : VectorRecord × ℝ =>
                (({ id := p.1.id, documentId := p.1.documentId, content := p.1.content,
                    metadata := p.1.metadata } : RAGChunk), p.2)) := by
        rw [hout, List.map_map]
        rfl
      have hkey2 : (searchCandidates st documentIds).map (candidateKey queryEmbedding)
          = scored.map
              (fun p : VectorRecord × ℝ =>
                (({ id := p.1.id, documentId := p.1.documentId, content := p.1.content,
                    metadata := p.1.metadata } : RAGChunk), p.2)) := by
        rw [hscored, List.map_map]
        rfl
      refine ⟨?_, ?_, ?_, ?_, ?_, rfl⟩
      · rw [hout]
        simp [List.length_take]
      · rw [hout]
        rw [List.pairwise_map]
        refine List.Pairwise.imp ?_ (hpw.sublist (List.take_sublist topK sorted))
        intro a b hab
        unfold scoreDescLe at hab
        exact of_decide_eq_true hab
      · refine ⟨(sorted.drop topK).map
            (fun p : VectorRecord × ℝ =>
              (({ id := p.1.id, documentId := p.1.documentId, content := p.1.content,
                  metadata := p.1.metadata } : RAGChunk), p.2)), ?_, ?_⟩
        · rw [hkey1, hkey2, ← List.map_append, hsplit]
          exact hperm.map _
        · intro p hps r hr
          obtain ⟨y, hy, hyp⟩ := List.mem_map.mp hps
          rw [hout] at hr
          obtain ⟨x, hx, hxr⟩ := List.mem_map.mp hr
          have hxy := (List.pairwise_append.mp (hsplit ▸ hpw)).2.2 x hx y hy
          unfold scoreDescLe at hxy
          have : y.2 ≤ x.2 := of_decide_eq_true hxy
          rw [← hyp, ← hxr]
          exact this
      · intro s
        rw [hkey1, hkey2]
        rw [List.filter_map, List.filter_map]
        refine List.IsPrefix.map _ ?_
        have hstable := mergeSort_filter_stable scoreDescLe htrans htotal
          (fun p : VectorRecord × ℝ => decide (p.2 = s)) ?_ scored
        · rw [← hsortdef] at hstable
          have hpre : (sorted.take topK).filter
                (fun p : VectorRecord × ℝ => decide (p.2 = s))
              <+: sorted.filter (fun p : VectorRecord × ℝ => decide (p.2 = s)) := by
            conv_rhs => rw [← hsplit]
            rw [List.filter_append]
            exact ⟨_, rfl⟩
          rw [hstable] at hpre
          exact hpre
        · intro x y hx hy
          unfold scoreDescLe
          simp only [decide_eq_true_eq] at *
          rw [hx, hy]
      · intro h0
        exact absurd (by rw [h0]; rfl) hemp

/-- Witness for C5 at the empty index (the claim's empty-index case),
with the hypothesis discharged by computation. -/
theorem searchSimilar_spec_witness :
    searchSimilar emptyDB [] 5 none 0 = some [] ∧
    (([] : List RAGSearchResult).length ≤ 5 ∧
     List.Pairwise (fun x y => y.score ≤ x.score) ([] : List RAGSearchResult) ∧
     (∃ rest, ((([] : List RAGSearchResult).map searchResultKey) ++ rest).Perm
         ((searchCandidates emptyDB none).map (candidateKey [])) ∧
       ∀ p ∈ rest, ∀ r ∈ ([] : List RAGSearchResult), p.2 ≤ r.score) ∧
     (∀ s : ℝ, ((([] : List RAGSearchResult).map searchResultKey).filter
           (fun p => decide (p.2 = s))) <+:
         (((searchCandidates emptyDB none).map (candidateKey [])).filter
           (fun p => decide (p.2 = s)))) ∧
     (emptyDB.vectorStore = [] → ([] : List RAGSearchResult) = []) ∧
     searchSimilar { vectorStore := [], documentStore := emptyDB.documentStore }
       [] 5 none 0 = some []) :=
  ⟨rfl, searchSimilar_spec emptyDB [] 5 none 0 [] rfl⟩

end AIPlayground
